import Mathlib

/-!
Formal model of the live-visualization core of the `audio-visualizer` crate.

The development shallowly embeds the Rust sources:

* `src/dynamic/live_input.rs` — the capture setup (`setup_audio_input_loop`),
  its channel-count assertion, the mono/stereo capture callback, and
  `list_input_devs`;
* `src/dynamic/window_top_btm/mod.rs` — the ring-buffer construction
  (`init_ringbuffer`), the render loop of `open_window_connect_audio`, and the
  decimated waveform painting (`fill_chart_waveform_over_time`);
* `src/dynamic/window_top_btm/visualize_minifb.rs` — the chart-range setup of
  `setup_window`.

`f32`/`f64` sample and coordinate values are embedded as `ℚ` (exact
arithmetic); `usize`/`u16`/`u32` quantities as `ℕ`.  The
`ringbuffer::AllocRingBuffer` is modelled by its logical content: the list of
stored elements in oldest-to-newest order together with its fixed capacity.
-/

namespace AudioVisualizer

/-! ## The sliding-window sample store (`ringbuffer::AllocRingBuffer`) -/

/-- Model of `ringbuffer::AllocRingBuffer<α>`: a fixed-capacity ring holding
`data` (oldest element first, newest last). -/
structure AllocRingBuffer (α : Type) where
  capacity : ℕ
  data : List α
  deriving Repr, DecidableEq

/-- Model of `AllocRingBuffer::new(cap)`: an empty ring of the given
capacity (the crate panics on capacity 0; all call sites here use a positive
power of two). -/
def AllocRingBuffer.new (α : Type) (cap : ℕ) : AllocRingBuffer α :=
  ⟨cap, []⟩

/-- Model of `RingBuffer::push`: append one element; when the ring is full the
oldest element is evicted. -/
def AllocRingBuffer.push {α : Type} (b : AllocRingBuffer α) (x : α) : AllocRingBuffer α :=
  if b.data.length = b.capacity then ⟨b.capacity, b.data.tail ++ [x]⟩
  else ⟨b.capacity, b.data ++ [x]⟩

/-- Model of `RingBuffer::extend`: push every element of `xs` in order. -/
def AllocRingBuffer.extend {α : Type} (b : AllocRingBuffer α) (xs : List α) : AllocRingBuffer α :=
  xs.foldl AllocRingBuffer.push b

/-- Model of `RingBuffer::to_vec`: the stored elements, oldest first. -/
def AllocRingBuffer.to_vec {α : Type} (b : AllocRingBuffer α) : List α :=
  b.data

/-- Model of `RingBuffer::fill`: fill the whole ring with copies of `x`, so
that `len == capacity` afterwards. -/
def AllocRingBuffer.fill {α : Type} (b : AllocRingBuffer α) (x : α) : AllocRingBuffer α :=
  ⟨b.capacity, List.replicate b.capacity x⟩

/-- A sequence of capture-callback invocations: extend the store with each
chunk in order. -/
def extend_chunks {α : Type} (b : AllocRingBuffer α) (chunks : List (List α)) :
    AllocRingBuffer α :=
  chunks.foldl AllocRingBuffer.extend b

/-- Model of Rust `usize::next_power_of_two`, computed by the recursion
`go`: starting from `power = 1`, double until `n ≤ power`.  The fuel argument
(`n` at the top entry) bounds the number of doublings; since `n ≤ 2 ^ n` the
fuel never runs out for the payload argument used below. -/
def next_power_of_two_go (n : ℕ) : ℕ → ℕ → ℕ
  | 0, power => power
  | fuel + 1, power => if n ≤ power then power else next_power_of_two_go n fuel (power * 2)

/-- Model of Rust `usize::next_power_of_two`: the smallest power of two that
is `≥ max n 1`. -/
def next_power_of_two (n : ℕ) : ℕ :=
  next_power_of_two_go n n 1

/-- Model of `init_ringbuffer` (window_top_btm/mod.rs): a ring of capacity
`(5 * sampling_rate).next_power_of_two()`, zero-filled. -/
def init_ringbuffer (sampling_rate : ℕ) : AllocRingBuffer ℚ :=
  ((AllocRingBuffer.new ℚ (next_power_of_two (5 * sampling_rate))).fill 0)

/-- The last `n` elements of a list (all of it when it is shorter than `n`). -/
def lastN {α : Type} (n : ℕ) (l : List α) : List α :=
  l.drop (l.length - n)

/-! ## The capture callback (`setup_audio_input_loop` in live_input.rs) -/

/-- Model of `<[T]>::chunks_exact(2)`: the consecutive disjoint pairs of the
list, a trailing unpaired element being dropped. -/
def chunks_exact2 {α : Type} : List α → List (α × α)
  | a :: b :: rest => (a, b) :: chunks_exact2 rest
  | _ => []

/-- Model of the capture callback body in `setup_audio_input_loop`: in the
mono path the data is appended as-is; in the stereo path each LR pair is
downmixed to `(vals[0] + vals[1]) / 2.0`. -/
def audio_input_callback (is_mono : Bool) (audio_buf : AllocRingBuffer ℚ)
    (data : List ℚ) : AllocRingBuffer ℚ :=
  if is_mono then audio_buf.extend data
  else audio_buf.extend ((chunks_exact2 data).map (fun vals => (vals.1 + vals.2) / 2))

/-- An LRLR-interleaved stereo buffer built from equally long left and right
channel lists. -/
def interleave {α : Type} : List α → List α → List α
  | a :: as, b :: bs => a :: b :: interleave as bs
  | _, _ => []

/-- Model of `cpal::StreamConfig`: channel count and sampling rate. -/
structure StreamConfig where
  channels : ℕ
  sample_rate : ℕ
  deriving Repr, DecidableEq

/-- Model of the built `cpal::Stream`: it carries the `is_mono` flag captured
by the data callback (`audio_input_callback`). -/
structure Stream where
  is_mono : Bool
  deriving Repr, DecidableEq

/-- Model of `setup_audio_input_loop`: the `assert!(cfg.channels == 1 ||
cfg.channels == 2, ...)` runs before `build_input_stream`; a failing assert is
an `Except.error` carrying the panic message, so no stream value exists on
that path. -/
def setup_audio_input_loop (cfg : StreamConfig) : Except String Stream :=
  if cfg.channels = 1 ∨ cfg.channels = 2 then Except.ok ⟨cfg.channels = 1⟩
  else Except.error "only supports Mono or Stereo channels!"

/-! ## Decimated waveform painting (`fill_chart_waveform_over_time`) -/

/-- The point list handed to `LineSeries::new` by
`fill_chart_waveform_over_time`: enumerate the samples, keep the indices
divisible by 4, and map index `i` to
`(time_per_sample * i - audio_history_buf_len * time_per_sample, sample)`. -/
def waveform_points (audio_data : List ℚ) (time_per_sample : ℚ)
    (audio_history_buf_len : ℕ) : List (ℚ × ℚ) :=
  let timeshift := (audio_history_buf_len : ℚ) * time_per_sample
  ((audio_data.enum.filter (fun p => p.1 % 4 == 0)).map
    (fun p => (time_per_sample * (p.1 : ℚ) - timeshift, p.2)))

/-- Model of `fill_chart_waveform_over_time` including its
`debug_assert_eq!(audio_data.len(), audio_history_buf_len)`.  The
`debug_assertions` flag mirrors Rust `cfg(debug_assertions)`: the length check
only runs (and only panics, modelled as `Except.error`) when it is true. -/
def fill_chart_waveform_over_time (debug_assertions : Bool) (audio_data : List ℚ)
    (time_per_sample : ℚ) (audio_history_buf_len : ℕ) : Except String (List (ℚ × ℚ)) :=
  if debug_assertions && !(audio_data.length == audio_history_buf_len) then
    Except.error "assertion failed: audio_data.len() == audio_history_buf_len"
  else
    Except.ok (waveform_points audio_data time_per_sample audio_history_buf_len)

/-! ## Chart setup (`setup_window` in visualize_minifb.rs) -/

/-- Model of a Rust `Range<f64>` value `start..stop`. -/
structure FRange where
  start : ℚ
  stop : ℚ
  deriving Repr, DecidableEq

/-- Model of a detached chart template as produced by `draw_chart`: the axis
ranges and descriptions it was built with. -/
structure ChartTemplate where
  x_range : FRange
  y_range : FRange
  x_desc : String
  y_desc : String
  deriving Repr, DecidableEq

/-- Constant `DEFAULT_W` from visualize_minifb.rs. -/
def DEFAULT_W : ℕ := 1280

/-- Constant `DEFAULT_H` from visualize_minifb.rs. -/
def DEFAULT_H : ℕ := 720

/-- Result of `setup_window`: window dimensions, the top chart template, and
the bottom chart template (the window handle and pixel buffer are platform
objects outside the model). -/
structure WindowSetup where
  width : ℕ
  height : ℕ
  top_chart : ChartTemplate
  btm_chart : ChartTemplate
  deriving Repr, DecidableEq

/-- Model of the range and template computation of `setup_window`. -/
def setup_window (preferred_height preferred_width : Option ℕ)
    (preferred_x_range preferred_y_range : Option FRange)
    (x_desc y_desc : String) (audio_buffer_len : ℕ) (time_per_sample : ℚ) :
    WindowSetup :=
  let height := preferred_height.getD DEFAULT_H
  let width := preferred_width.getD DEFAULT_W
  let x_range_top : FRange := ⟨-((audio_buffer_len : ℚ) * time_per_sample), 0.0⟩
  let y_range_top : FRange := ⟨-1.0, 1.01⟩
  let x_range_btm := preferred_x_range.getD x_range_top
  let y_range_btm := preferred_y_range.getD y_range_top
  { width := width
    height := height
    top_chart := ⟨x_range_top, y_range_top, "time (seconds)", "amplitude"⟩
    btm_chart := ⟨x_range_btm, y_range_btm, x_desc, y_desc⟩ }

/-! ## The render loop of `open_window_connect_audio` -/

/-- The per-iteration window observations the loop branches on:
`window.is_open()` and `window.is_key_down(Key::Escape)`. -/
structure FrameInputs where
  isOpen : Bool
  escapeDown : Bool
  deriving Repr, DecidableEq

/-- Why the render loop exited. -/
inductive ExitReason where
  | windowClosed
  | escapePressed
  deriving Repr, DecidableEq

/-- Outcome of a completed `open_window_connect_audio` call: how many full
frames were painted, why the loop exited, and whether the capture stream is
still playing when the call returns. -/
structure RunOutcome where
  framesDrawn : ℕ
  exitReason : ExitReason
  streamPlayingAtReturn : Bool
  deriving Repr, DecidableEq

/-- Model of the `while window.is_open()` loop: at the top of each iteration
the loop exits when the window is closed; then it exits when Escape is down;
otherwise it paints one complete frame and continues.  `none` means the
observation trace ended with the loop still running. -/
def render_loop : List FrameInputs → ℕ → Option (ℕ × ExitReason)
  | [], _ => none
  | inp :: rest, frames =>
    if inp.isOpen = false then some (frames, ExitReason.windowClosed)
    else if inp.escapeDown then some (frames, ExitReason.escapePressed)
    else render_loop rest (frames + 1)

/-- Model of `open_window_connect_audio` over a trace of window observations:
`stream.play()` precedes the loop, `stream.pause()` follows it on the one
return path.  Returns `none` when the trace ends with the window still open
(the call has not returned). -/
def open_window_connect_audio (trace : List FrameInputs) : Option RunOutcome :=
  match render_loop trace 0 with
  | none => none
  | some (frames, reason) =>
    some { framesDrawn := frames, exitReason := reason, streamPlayingAtReturn := false }

/-! ## Device listing (`list_input_devs` in live_input.rs) -/

/-- Model of a `cpal::Device` as far as `list_input_devs` observes it: the
result of its `name()` query. -/
structure Device where
  nameResult : Except Unit String
  deriving Repr

/-- The display name `list_input_devs` attaches to a device:
`dev.name().unwrap_or_else(|_| String::from("<unknown>"))`. -/
def device_display_name (dev : Device) : String :=
  match dev.nameResult with
  | Except.ok n => n
  | Except.error _ => "<unknown>"

/-- Model of `list_input_devs`: tag every input device with its display name,
then sort by name (`devs.sort_by(|(n1, _), (n2, _)| n1.cmp(n2))`, a stable
comparison sort, modelled by `mergeSort`). -/
def list_input_devs (devices : List Device) : List (String × Device) :=
  (devices.map (fun dev => (device_display_name dev, dev))).mergeSort
    (fun p q => decide (p.1 ≤ q.1))

/-! ## Ring-buffer lemmas -/

theorem lastN_of_length_le {α : Type} {n : ℕ} {l : List α} (h : l.length ≤ n) :
    lastN n l = l := by
  simp [lastN, Nat.sub_eq_zero_of_le h]

theorem lastN_cons {α : Type} {n : ℕ} {l : List α} (a : α) (h : n ≤ l.length) :
    lastN n (a :: l) = lastN n l := by
  simp only [lastN, List.length_cons]
  rw [show l.length + 1 - n = (l.length - n) + 1 by omega]
  rfl

theorem lastN_append {α : Type} {n : ℕ} (l₁ : List α) {l₂ : List α} (h : n ≤ l₂.length) :
    lastN n (l₁ ++ l₂) = lastN n l₂ := by
  induction l₁ with
  | nil => rfl
  | cons a l ih =>
    rw [List.cons_append, lastN_cons a, ih]
    simp only [List.length_append]
    omega

theorem lastN_length {α : Type} {n : ℕ} {l : List α} (h : n ≤ l.length) :
    (lastN n l).length = n := by
  simp [lastN, Nat.sub_sub_self h]

/-- Extending a full ring (stated on the components) leaves exactly the last
`capacity` elements of the old content followed by the appended data. -/
theorem AllocRingBuffer.extend_data {α : Type} (xs : List α) (cap : ℕ) :
    ∀ d : List α, d.length = cap → 0 < cap →
      ((AllocRingBuffer.mk cap d).extend xs).data = lastN cap (d ++ xs) ∧
        ((AllocRingBuffer.mk cap d).extend xs).capacity = cap := by
  induction xs with
  | nil =>
    intro d hfull _
    refine ⟨?_, rfl⟩
    show d = lastN cap (d ++ [])
    rw [List.append_nil, lastN_of_length_le (Nat.le_of_eq hfull)]
  | cons x xs ih =>
    intro d hfull hpos
    cases d with
    | nil => simp at hfull; omega
    | cons a t =>
      have hlen : t.length + 1 = cap := by simpa using hfull
      have hpush : (AllocRingBuffer.mk cap (a :: t)).push x =
          AllocRingBuffer.mk cap (t ++ [x]) := by
        simp [AllocRingBuffer.push, hfull]
      have hstep : (AllocRingBuffer.mk cap (a :: t)).extend (x :: xs) =
          (AllocRingBuffer.mk cap (t ++ [x])).extend xs := by
        show ((AllocRingBuffer.mk cap (a :: t)).push x).extend xs = _
        rw [hpush]
      obtain ⟨hdata, hcap⟩ := ih (t ++ [x]) (by simp; omega) hpos
      rw [hstep, hdata]
      refine ⟨?_, hcap⟩
      rw [show (t ++ [x]) ++ xs = t ++ x :: xs by simp,
        show (a :: t) ++ x :: xs = a :: (t ++ x :: xs) by simp,
        lastN_cons a (by simp; omega)]

/-- Extending a full ring keeps it full. -/
theorem AllocRingBuffer.extend_full {α : Type} (xs : List α) (b : AllocRingBuffer α)
    (hfull : b.data.length = b.capacity) (hpos : 0 < b.capacity) :
    (b.extend xs).data = lastN b.capacity (b.data ++ xs) ∧
      (b.extend xs).data.length = b.capacity ∧ (b.extend xs).capacity = b.capacity := by
  obtain ⟨cap, d⟩ := b
  have hf : d.length = cap := hfull
  obtain ⟨hdata, hcap⟩ := AllocRingBuffer.extend_data xs cap d hf hpos
  refine ⟨hdata, ?_, hcap⟩
  rw [hdata]
  exact lastN_length (by simp; omega)

/-- A sequence of `extend` calls behaves like one `extend` of the
concatenation. -/
theorem extend_chunks_eq_extend_flatten {α : Type} (chunks : List (List α))
    (b : AllocRingBuffer α) :
    extend_chunks b chunks = b.extend chunks.flatten := by
  induction chunks generalizing b with
  | nil => simp [extend_chunks, AllocRingBuffer.extend]
  | cons c cs ih =>
    show extend_chunks (b.extend c) cs = _
    rw [ih, List.flatten_cons, AllocRingBuffer.extend, AllocRingBuffer.extend,
      AllocRingBuffer.extend, List.foldl_append]

/-! ## Next-power-of-two lemmas -/

theorem next_power_of_two_go_pos (n : ℕ) :
    ∀ fuel power, 0 < power → 0 < next_power_of_two_go n fuel power := by
  intro fuel
  induction fuel with
  | zero => intro power h; simpa [next_power_of_two_go] using h
  | succ fuel ih =>
    intro power h
    simp only [next_power_of_two_go]
    split
    · exact h
    · exact ih (power * 2) (by omega)

theorem next_power_of_two_go_ge (n : ℕ) :
    ∀ fuel power, n ≤ power * 2 ^ fuel → n ≤ next_power_of_two_go n fuel power := by
  intro fuel
  induction fuel with
  | zero => intro power h; simpa [next_power_of_two_go] using by simpa using h
  | succ fuel ih =>
    intro power h
    simp only [next_power_of_two_go]
    split
    · assumption
    · exact ih (power * 2) (by rw [Nat.pow_succ] at h; ring_nf; ring_nf at h; omega)

theorem next_power_of_two_go_pow2 (n : ℕ) :
    ∀ fuel k, ∃ j, next_power_of_two_go n fuel (2 ^ k) = 2 ^ j := by
  intro fuel
  induction fuel with
  | zero => intro k; exact ⟨k, rfl⟩
  | succ fuel ih =>
    intro k
    simp only [next_power_of_two_go]
    split
    · exact ⟨k, rfl⟩
    · simpa [Nat.pow_succ] using ih (k + 1)

theorem next_power_of_two_go_min (n : ℕ) :
    ∀ fuel k m, 2 ^ k ≤ 2 ^ m → n ≤ 2 ^ m →
      next_power_of_two_go n fuel (2 ^ k) ≤ 2 ^ m := by
  intro fuel
  induction fuel with
  | zero => intro k m hkm _; simpa [next_power_of_two_go] using hkm
  | succ fuel ih =>
    intro k m hkm hnm
    simp only [next_power_of_two_go]
    split
    · exact hkm
    · rename_i hlt
      have hk_lt_m : k < m := by
        by_contra hc
        have : 2 ^ m ≤ 2 ^ k := Nat.pow_le_pow_right (by omega) (by omega)
        omega
      have : (2 : ℕ) ^ k * 2 = 2 ^ (k + 1) := by rw [Nat.pow_succ]
      rw [this]
      exact ih (k + 1) m (Nat.pow_le_pow_right (by omega) (by omega)) hnm

/-- The modelled `next_power_of_two` is a power of two, is at least `n`, and
is the least power of two that is at least `n`. -/
theorem next_power_of_two_spec (n : ℕ) :
    n ≤ next_power_of_two n ∧ (∃ j, next_power_of_two n = 2 ^ j) ∧
      (∀ m, n ≤ 2 ^ m → next_power_of_two n ≤ 2 ^ m) ∧ 0 < next_power_of_two n := by
  refine ⟨?_, ?_, ?_, ?_⟩
  · exact next_power_of_two_go_ge n n 1 (by simpa using Nat.le_of_lt (Nat.lt_two_pow n))
  · simpa using next_power_of_two_go_pow2 n n 0
  · intro m hm
    simpa using next_power_of_two_go_min n n 0 m (Nat.one_le_two_pow) hm
  · exact next_power_of_two_go_pos n n 1 (by omega)

/-! ## Claim theorems -/

/-- C1: starting from the zero-filled store of `open_window_connect_audio`,
any sequence of capture extends whose total appended length exceeds the
capacity leaves a snapshot (`to_vec`) equal to exactly the last `capacity`
appended elements in append order, with total length still equal to the
capacity. -/
theorem sliding_window_eviction (sampling_rate : ℕ) (chunks : List (List ℚ))
    (hover : (init_ringbuffer sampling_rate).capacity < (chunks.map List.length).sum) :
    (extend_chunks (init_ringbuffer sampling_rate) chunks).to_vec =
        lastN (init_ringbuffer sampling_rate).capacity chunks.flatten ∧
      (extend_chunks (init_ringbuffer sampling_rate) chunks).to_vec.length =
        (init_ringbuffer sampling_rate).capacity := by
  set b := init_ringbuffer sampling_rate with hb
  have hcap : 0 < b.capacity := (next_power_of_two_spec (5 * sampling_rate)).2.2.2
  have hfull : b.data.length = b.capacity := by
    simp [hb, init_ringbuffer, AllocRingBuffer.fill, AllocRingBuffer.new]
  have hflat : b.capacity ≤ chunks.flatten.length := by
    rw [List.length_flatten]; omega
  rw [extend_chunks_eq_extend_flatten]
  obtain ⟨hdata, hlen, _⟩ := AllocRingBuffer.extend_full chunks.flatten b hfull hcap
  exact ⟨by rw [AllocRingBuffer.to_vec, hdata, lastN_append b.data hflat], hlen⟩

/-- C1 witness: with sampling rate 1 the capacity is 8; appending 5 + 5
samples leaves exactly the last 8 of them. -/
theorem sliding_window_eviction_witness :
    (init_ringbuffer 1).capacity < ((([[1, 2, 3, 4, 5], [6, 7, 8, 9, 10]] :
        List (List ℚ)).map List.length).sum) ∧
      (extend_chunks (init_ringbuffer 1) [[1, 2, 3, 4, 5], [6, 7, 8, 9, 10]]).to_vec =
          lastN (init_ringbuffer 1).capacity
            ([[1, 2, 3, 4, 5], [6, 7, 8, 9, 10]] : List (List ℚ)).flatten ∧
        (extend_chunks (init_ringbuffer 1) [[1, 2, 3, 4, 5], [6, 7, 8, 9, 10]]).to_vec.length =
          (init_ringbuffer 1).capacity :=
  ⟨by decide, sliding_window_eviction 1 [[1, 2, 3, 4, 5], [6, 7, 8, 9, 10]] (by decide)⟩

theorem lastN_replicate_append {α : Type} (z : α) (cap : ℕ) (xs : List α)
    (hle : xs.length ≤ cap) :
    lastN cap (List.replicate cap z ++ xs) = List.replicate (cap - xs.length) z ++ xs := by
  have hsplit : List.replicate cap z =
      List.replicate xs.length z ++ List.replicate (cap - xs.length) z := by
    rw [← List.replicate_add]
    congr 1
    omega
  rw [lastN, List.length_append, List.length_replicate,
    show cap + xs.length - cap = xs.length by omega, hsplit, List.append_assoc]
  have hd := List.drop_left (List.replicate xs.length z)
    (List.replicate (cap - xs.length) z ++ xs)
  rw [List.length_replicate] at hd
  exact hd

/-- C2: the store built by `init_ringbuffer` for sampling rate `r` has
`len = capacity = next_power_of_two (5 * r)` (a power of two, at least `5r`,
and minimal such), every element is `0` before any capture append, and a
sequence of appends of total length at most the capacity snapshots to the
remaining zero prefill followed by the appended data in order. -/
theorem store_construction_and_prefill (sampling_rate : ℕ) (chunks : List (List ℚ))
    (hle : (chunks.map List.length).sum ≤ (init_ringbuffer sampling_rate).capacity) :
    (init_ringbuffer sampling_rate).capacity = next_power_of_two (5 * sampling_rate) ∧
      5 * sampling_rate ≤ (init_ringbuffer sampling_rate).capacity ∧
      (∃ j, (init_ringbuffer sampling_rate).capacity = 2 ^ j) ∧
      (∀ m, 5 * sampling_rate ≤ 2 ^ m → (init_ringbuffer sampling_rate).capacity ≤ 2 ^ m) ∧
      (init_ringbuffer sampling_rate).to_vec.length = (init_ringbuffer sampling_rate).capacity ∧
      (∀ x ∈ (init_ringbuffer sampling_rate).to_vec, x = 0) ∧
      (extend_chunks (init_ringbuffer sampling_rate) chunks).to_vec =
        List.replicate
            ((init_ringbuffer sampling_rate).capacity - (chunks.map List.length).sum) 0 ++
          chunks.flatten ∧
      (extend_chunks (init_ringbuffer sampling_rate) chunks).to_vec.length =
        (init_ringbuffer sampling_rate).capacity := by
  obtain ⟨hge, hpow, hmin, hpos⟩ := next_power_of_two_spec (5 * sampling_rate)
  have hcap : (init_ringbuffer sampling_rate).capacity = next_power_of_two (5 * sampling_rate) :=
    rfl
  have hdata : (init_ringbuffer sampling_rate).data =
      List.replicate (init_ringbuffer sampling_rate).capacity 0 := rfl
  have hflatlen : chunks.flatten.length = (chunks.map List.length).sum := List.length_flatten _
  have hfull : (init_ringbuffer sampling_rate).data.length =
      (init_ringbuffer sampling_rate).capacity := by rw [hdata, List.length_replicate]
  obtain ⟨hext, hextlen, _⟩ := AllocRingBuffer.extend_full chunks.flatten
    (init_ringbuffer sampling_rate) hfull (hcap ▸ hpos)
  refine ⟨hcap, hcap ▸ hge, hcap ▸ hpow, fun m hm => hcap ▸ hmin m hm, hfull, ?_, ?_, ?_⟩
  · intro x hx
    have hx2 : x ∈ List.replicate (init_ringbuffer sampling_rate).capacity (0 : ℚ) := by
      rw [← hdata]
      exact hx
    exact List.eq_of_mem_replicate hx2
  · rw [extend_chunks_eq_extend_flatten, AllocRingBuffer.to_vec, hext, hdata,
      lastN_replicate_append 0 _ chunks.flatten (hflatlen ▸ hle), hflatlen]
  · rw [extend_chunks_eq_extend_flatten, AllocRingBuffer.to_vec]
    exact hextlen

/-- C2 witness: sampling rate 1 gives capacity 8; appending 3 samples leaves
five zeros of prefill followed by the appended samples. -/
theorem store_construction_and_prefill_witness :
    ((([[1, 2, 3]] : List (List ℚ)).map List.length).sum ≤ (init_ringbuffer 1).capacity) ∧
      (extend_chunks (init_ringbuffer 1) [[1, 2, 3]]).to_vec =
        List.replicate
            ((init_ringbuffer 1).capacity - (([[1, 2, 3]] : List (List ℚ)).map List.length).sum) 0
          ++ ([[1, 2, 3]] : List (List ℚ)).flatten :=
  ⟨by decide, (store_construction_and_prefill 1 [[1, 2, 3]] (by decide)).2.2.2.2.2.2.1⟩

/-! ## Downmix lemmas -/

theorem chunks_exact2_interleave_map {α β : Type} (f : α → α → β) :
    ∀ L R : List α, L.length = R.length →
      ((chunks_exact2 (interleave L R)).map (fun v => f v.1 v.2)) = List.zipWith f L R := by
  intro L
  induction L with
  | nil => intro R _; rfl
  | cons a as ih =>
    intro R h
    cases R with
    | nil => simp at h
    | cons b bs =>
      show f a b :: ((chunks_exact2 (interleave as bs)).map (fun v => f v.1 v.2)) = _
      rw [ih bs (by simpa using h)]
      rfl

/-- C3: appending an even-length LR-interleaved buffer through the stereo
path of the capture callback yields exactly the store produced by the mono
path on the per-frame downmixes `(l + r) / 2`. -/
theorem stereo_downmix_equivalence (buf : AllocRingBuffer ℚ) (L R : List ℚ)
    (h : L.length = R.length) :
    audio_input_callback false buf (interleave L R) =
      audio_input_callback true buf (List.zipWith (fun l r => (l + r) / 2) L R) := by
  show buf.extend ((chunks_exact2 (interleave L R)).map (fun vals => (vals.1 + vals.2) / 2)) =
    buf.extend (List.zipWith (fun l r => (l + r) / 2) L R)
  rw [chunks_exact2_interleave_map (fun l r => (l + r) / 2) L R h]

/-- C3 witness: the two capture paths agree on the concrete stereo buffer
`[1, 2, 3, 4]` (frames `(1,2)` and `(3,4)`). -/
theorem stereo_downmix_equivalence_witness :
    audio_input_callback false (init_ringbuffer 1) (interleave [1, 3] [2, 4]) =
      audio_input_callback true (init_ringbuffer 1)
        (List.zipWith (fun l r => (l + r) / 2) [1, 3] [2, 4]) :=
  stereo_downmix_equivalence (init_ringbuffer 1) [1, 3] [2, 4] (by decide)

/-! ## chunks_exact lemmas for the odd-length stereo buffer -/

theorem chunks_exact2_length {α : Type} :
    ∀ l : List α, (chunks_exact2 l).length = l.length / 2
  | [] => by simp [chunks_exact2]
  | [_] => by simp [chunks_exact2]
  | _ :: _ :: rest => by
    simp only [chunks_exact2, List.length_cons]
    rw [chunks_exact2_length rest]
    omega

theorem chunks_exact2_take {α : Type} :
    ∀ l : List α, chunks_exact2 (l.take (2 * (l.length / 2))) = chunks_exact2 l
  | [] => by simp [chunks_exact2]
  | [_] => by simp [chunks_exact2]
  | a :: b :: rest => by
    have ih := chunks_exact2_take rest
    simp only [List.length_cons]
    rw [show (rest.length + 1 + 1) / 2 = rest.length / 2 + 1 by omega,
      show 2 * (rest.length / 2 + 1) = 2 * (rest.length / 2) + 1 + 1 by ring,
      List.take_succ_cons, List.take_succ_cons]
    simp only [chunks_exact2]
    rw [ih]

theorem chunks_exact2_getElem {α : Type} :
    ∀ (l : List α) (i : ℕ),
      (chunks_exact2 l)[i]? = l[2 * i]?.bind (fun a => l[2 * i + 1]?.map (fun b => (a, b)))
  | [], i => by simp [chunks_exact2]
  | [a], i => by
    cases i with
    | zero => simp [chunks_exact2]
    | succ n => simp [chunks_exact2, show 2 * (n + 1) = 2 * n + 1 + 1 by ring]
  | a :: b :: rest, i => by
    cases i with
    | zero => simp [chunks_exact2]
    | succ n =>
      have ih := chunks_exact2_getElem rest n
      simp only [chunks_exact2, List.getElem?_cons_succ,
        show 2 * (n + 1) = (2 * n + 1) + 1 by ring,
        show 2 * n + 1 + 1 = (2 * n + 1) + 1 from rfl]
      exact ih

/-- C10: a stereo capture buffer of odd length `2n + 1` appends exactly `n`
downmixed samples — one per complete LR pair, the `i`-th being the average of
elements `2i` and `2i + 1` — and the final unpaired sample is discarded: the
callback result equals the result on the truncated even-length buffer.  The
callback is total, so no odd-length buffer panics. -/
theorem odd_stereo_buffer_truncation (buf : AllocRingBuffer ℚ) (data : List ℚ) (n : ℕ)
    (hodd : data.length = 2 * n + 1) :
    ((chunks_exact2 data).map (fun vals => (vals.1 + vals.2) / 2)).length = n ∧
      audio_input_callback false buf data = audio_input_callback false buf (data.take (2 * n)) ∧
      (∀ i, i < n →
        (chunks_exact2 data)[i]? = some (data.getD (2 * i) 0, data.getD (2 * i + 1) 0)) ∧
      audio_input_callback false buf data =
        buf.extend ((chunks_exact2 data).map (fun vals => (vals.1 + vals.2) / 2)) := by
  have hdiv : data.length / 2 = n := by omega
  refine ⟨?_, ?_, ?_, rfl⟩
  · rw [List.length_map, chunks_exact2_length, hdiv]
  · show buf.extend _ = buf.extend _
    have := chunks_exact2_take data
    rw [hdiv] at this
    rw [this]
  · intro i hi
    have h1 : 2 * i < data.length := by omega
    have h2 : 2 * i + 1 < data.length := by omega
    rw [chunks_exact2_getElem data i, List.getElem?_eq_getElem h1, List.getElem?_eq_getElem h2,
      List.getD_eq_getElem?_getD, List.getD_eq_getElem?_getD,
      List.getElem?_eq_getElem h1, List.getElem?_eq_getElem h2]
    rfl

/-- C10 witness: on the odd stereo buffer `[1, 2, 3]` exactly one downmixed
sample (for the pair `(1, 2)`) is appended and the trailing `3` is dropped. -/
theorem odd_stereo_buffer_truncation_witness :
    ([(1 : ℚ), 2, 3].length = 2 * 1 + 1) ∧
      ((chunks_exact2 [(1 : ℚ), 2, 3]).map (fun vals => (vals.1 + vals.2) / 2)).length = 1 ∧
        audio_input_callback false (init_ringbuffer 1) [(1 : ℚ), 2, 3] =
          audio_input_callback false (init_ringbuffer 1) ([(1 : ℚ), 2, 3].take (2 * 1)) :=
  ⟨by decide,
    (odd_stereo_buffer_truncation (init_ringbuffer 1) [1, 2, 3] 1 (by decide)).1,
    (odd_stereo_buffer_truncation (init_ringbuffer 1) [1, 2, 3] 1 (by decide)).2.1⟩

/-! ## Decimation lemmas -/

theorem waveform_filter_map_enumFrom {β : Type} (f : ℕ × ℚ → β) :
    ∀ (xs : List ℚ) (k : ℕ),
      ((List.enumFrom k xs).filter (fun p => p.1 % 4 == 0)).map f =
        ((List.range' k xs.length).filter (fun i => i % 4 == 0)).map
          (fun i => f (i, xs.getD (i - k) 0)) := by
  intro xs
  induction xs with
  | nil => intro k; rfl
  | cons x xs ih =>
    intro k
    have htail : ((List.range' (k + 1) xs.length).filter (fun i => i % 4 == 0)).map
          (fun i => f (i, xs.getD (i - (k + 1)) 0)) =
        ((List.range' (k + 1) xs.length).filter (fun i => i % 4 == 0)).map
          (fun i => f (i, (x :: xs).getD (i - k) 0)) := by
      refine List.map_congr_left (fun i hi => ?_)
      have hik : k + 1 ≤ i := (List.mem_range'_1.mp (List.mem_filter.mp hi).1).1
      rw [show i - k = (i - (k + 1)) + 1 by omega, List.getD_cons_succ]
    rw [List.enumFrom_cons, List.length_cons, List.range'_succ, List.filter_cons,
      List.filter_cons]
    by_cases hk : k % 4 = 0
    · simp only [hk, Nat.zero_mod, beq_self_eq_true, if_pos, List.map_cons, ih, htail]
      rw [show (x :: xs).getD (k - k) 0 = x by rw [Nat.sub_self, List.getD_cons_zero]]
    · have hbeq : (k % 4 == 0) = false := by simpa using hk
      simp only [hbeq, Bool.false_eq_true, if_false, ih, htail]

theorem length_filter_mod4_range :
    ∀ n : ℕ, ((List.range n).filter (fun i => i % 4 == 0)).length = (n + 3) / 4 := by
  intro n
  induction n with
  | zero => rfl
  | succ n ih =>
    rw [List.range_succ, List.filter_append, List.length_append, ih, List.filter_cons]
    by_cases h : n % 4 = 0
    · have hbeq : (n % 4 == 0) = true := by simpa using h
      simp only [hbeq, if_pos, List.filter_nil, List.length_cons, List.length_nil]
      omega
    · have hbeq : (n % 4 == 0) = false := by simpa using h
      simp only [hbeq, Bool.false_eq_true, if_false, List.filter_nil, List.length_nil]
      omega

/-- The number of points handed to the plotter by the decimated waveform
painting: one per index divisible by 4, i.e. `⌈len / 4⌉` of the `len`
samples — a roughly 4-fold reduction. -/
theorem waveform_points_length (audio_data : List ℚ) (tps : ℚ) (len : ℕ) :
    (waveform_points audio_data tps len).length = (audio_data.length + 3) / 4 := by
  have henum : audio_data.enum = List.enumFrom 0 audio_data := rfl
  have h := waveform_filter_map_enumFrom (fun p => p) audio_data 0
  have hlen := congrArg List.length h
  simp only [List.length_map] at hlen
  unfold waveform_points
  rw [List.length_map, henum, hlen, ← List.range_eq_range', length_filter_mod4_range]

/-- C4 (amended): with a matching snapshot length the painting procedure
succeeds and draws exactly the samples at indices divisible by 4, the point
for index `i` being `(i / rate - capacity / rate, sample[i])`; the number of
drawn points is `⌈len / 4⌉`, a roughly 4-fold (not 8-fold) reduction. -/
theorem decimated_waveform_painting (audio_data : List ℚ) (sampling_rate : ℕ)
    (capacity : ℕ) (hlen : audio_data.length = capacity) (debug_assertions : Bool) :
    fill_chart_waveform_over_time debug_assertions audio_data
        (1 / (sampling_rate : ℚ)) capacity =
      Except.ok (((List.range audio_data.length).filter (fun i => i % 4 == 0)).map
        (fun (i : ℕ) => ((i : ℚ) / (sampling_rate : ℚ) - (capacity : ℚ) / (sampling_rate : ℚ),
          audio_data.getD i 0))) ∧
      (waveform_points audio_data (1 / (sampling_rate : ℚ)) capacity).length =
        (audio_data.length + 3) / 4 := by
  refine ⟨?_, waveform_points_length audio_data _ capacity⟩
  have hok : fill_chart_waveform_over_time debug_assertions audio_data
      (1 / (sampling_rate : ℚ)) capacity =
      Except.ok (waveform_points audio_data (1 / (sampling_rate : ℚ)) capacity) := by
    unfold fill_chart_waveform_over_time
    have : (audio_data.length == capacity) = true := by simpa using hlen
    rw [this]
    simp
  rw [hok]
  congr 1
  have henum : audio_data.enum = List.enumFrom 0 audio_data := rfl
  unfold waveform_points
  rw [henum, waveform_filter_map_enumFrom
    (fun p => (1 / (sampling_rate : ℚ) * (p.1 : ℚ) - (capacity : ℚ) * (1 / (sampling_rate : ℚ)),
      p.2)) audio_data 0, ← List.range_eq_range']
  refine List.map_congr_left (fun i _ => ?_)
  rw [Nat.sub_zero]
  refine Prod.ext ?_ rfl
  show 1 / (sampling_rate : ℚ) * (i : ℚ) - (capacity : ℚ) * (1 / (sampling_rate : ℚ)) =
    (i : ℚ) / (sampling_rate : ℚ) - (capacity : ℚ) / (sampling_rate : ℚ)
  ring

/-- C4 witness: a 5-sample snapshot at capacity 5 paints the two points for
indices 0 and 4. -/
theorem decimated_waveform_painting_witness :
    ([(10 : ℚ), 11, 12, 13, 14].length = 5) ∧
      fill_chart_waveform_over_time true [(10 : ℚ), 11, 12, 13, 14] (1 / (2 : ℚ)) 5 =
        Except.ok (((List.range [(10 : ℚ), 11, 12, 13, 14].length).filter
            (fun i => i % 4 == 0)).map
          (fun (i : ℕ) => ((i : ℚ) / (2 : ℚ) - (5 : ℚ) / (2 : ℚ),
            [(10 : ℚ), 11, 12, 13, 14].getD i 0))) :=
  ⟨by decide, ((decimated_waveform_painting [10, 11, 12, 13, 14] 2 5 (by decide) true).1)⟩

/-- C4 counterexample to the 8-fold claim: a 33-sample snapshot paints the 9
points for indices 0, 4, …, 32, hence 8 connected segments; painting every
sample would give 32 segments.  The reduction in drawn segments is 4-fold,
not 8-fold. -/
theorem decimated_waveform_painting_8x_counterexample :
    (waveform_points (List.replicate 33 0) (1 / (44100 : ℚ)) 33).length - 1 = 8 ∧
      (List.replicate 33 (0 : ℚ)).length - 1 = 32 ∧
      (List.replicate 33 (0 : ℚ)).length - 1 ≠
        8 * ((waveform_points (List.replicate 33 0) (1 / (44100 : ℚ)) 33).length - 1) := by
  have h := waveform_points_length (List.replicate 33 0) (1 / (44100 : ℚ)) 33
  rw [List.length_replicate] at h
  refine ⟨by rw [h], by simp, ?_⟩
  rw [h, List.length_replicate]
  decide

/-- C5 counterexample: the length check in `fill_chart_waveform_over_time` is
a `debug_assert_eq!`, compiled out in release builds: with debug assertions
disabled, a Basic-transform result of length 1 against buffer length 4 is
accepted and silently rendered instead of rejected by a panic. -/
theorem basic_transform_length_counterexample :
    ([(0 : ℚ)].length ≠ 4) ∧
      (fill_chart_waveform_over_time false [(0 : ℚ)] 1 4).isOk = true := by
  exact ⟨by decide, rfl⟩

/-- C5 (amended): when debug assertions are enabled the renderer rejects a
Basic-transform result whose length differs from the snapshot length by
panicking in `debug_assert_eq!`; a matching length never panics; with debug
assertions disabled the data is always rendered. -/
theorem basic_transform_length_contract (debug_assertions : Bool) (audio_data : List ℚ)
    (time_per_sample : ℚ) (audio_history_buf_len : ℕ) :
    (debug_assertions = true → audio_data.length ≠ audio_history_buf_len →
      fill_chart_waveform_over_time debug_assertions audio_data time_per_sample
          audio_history_buf_len =
        Except.error "assertion failed: audio_data.len() == audio_history_buf_len") ∧
      (audio_data.length = audio_history_buf_len →
        fill_chart_waveform_over_time debug_assertions audio_data time_per_sample
            audio_history_buf_len =
          Except.ok (waveform_points audio_data time_per_sample audio_history_buf_len)) ∧
      (debug_assertions = false →
        fill_chart_waveform_over_time debug_assertions audio_data time_per_sample
            audio_history_buf_len =
          Except.ok (waveform_points audio_data time_per_sample audio_history_buf_len)) := by
  refine ⟨?_, ?_, ?_⟩
  · intro hda hne
    subst hda
    have hbeq : (audio_data.length == audio_history_buf_len) = false := by simpa using hne
    simp [fill_chart_waveform_over_time, hbeq]
  · intro heq
    have hbeq : (audio_data.length == audio_history_buf_len) = true := by simpa using heq
    simp [fill_chart_waveform_over_time, hbeq]
  · intro hda
    subst hda
    simp [fill_chart_waveform_over_time]

/-- C5 witness: in a debug build the mismatched length 1 vs 4 panics, while
the matching length 1 vs 1 renders. -/
theorem basic_transform_length_contract_witness :
    fill_chart_waveform_over_time true [(0 : ℚ)] 1 4 =
        Except.error "assertion failed: audio_data.len() == audio_history_buf_len" ∧
      fill_chart_waveform_over_time true [(0 : ℚ)] 1 1 =
        Except.ok (waveform_points [(0 : ℚ)] 1 1) :=
  ⟨(basic_transform_length_contract true [0] 1 4).1 rfl (by decide),
    (basic_transform_length_contract true [0] 1 1).2.1 (by decide)⟩

/-! ## Render-loop lemmas -/

theorem render_loop_spec :
    ∀ (tr : List FrameInputs) (acc frames : ℕ) (reason : ExitReason),
      render_loop tr acc = some (frames, reason) →
        frames = acc + (tr.takeWhile (fun i => i.isOpen && !i.escapeDown)).length ∧
          ∃ obs,
            tr[(tr.takeWhile (fun i => i.isOpen && !i.escapeDown)).length]? = some obs ∧
              ((obs.isOpen = false ∧ reason = ExitReason.windowClosed) ∨
                (obs.isOpen = true ∧ obs.escapeDown = true ∧
                  reason = ExitReason.escapePressed)) := by
  intro tr
  induction tr with
  | nil => intro acc frames reason h; simp [render_loop] at h
  | cons inp rest ih =>
    intro acc frames reason h
    cases hopen : inp.isOpen with
    | false =>
      rw [render_loop, hopen] at h
      simp only [if_pos rfl] at h
      obtain ⟨hf, hr⟩ : frames = acc ∧ reason = ExitReason.windowClosed := by
        cases h
        exact ⟨rfl, rfl⟩
      subst hf hr
      rw [List.takeWhile_cons, hopen]
      exact ⟨by simp, inp, by simp, Or.inl ⟨hopen, rfl⟩⟩
    | true =>
      cases hesc : inp.escapeDown with
      | true =>
        rw [render_loop, hopen] at h
        simp only [hesc] at h
        obtain ⟨hf, hr⟩ : frames = acc ∧ reason = ExitReason.escapePressed := by
          cases h
          exact ⟨rfl, rfl⟩
        subst hf hr
        rw [List.takeWhile_cons, hopen, hesc]
        exact ⟨by simp, inp, by simp, Or.inr ⟨hopen, hesc, rfl⟩⟩
      | false =>
        rw [render_loop, hopen] at h
        simp only [hesc] at h
        obtain ⟨hf, obs, hobs, hcase⟩ := ih (acc + 1) frames reason h
        rw [List.takeWhile_cons, hopen, hesc]
        simp only [Bool.not_false, Bool.and_true, Bool.and_self, if_pos, List.length_cons]
        exact ⟨by omega, obs, by simpa using hobs, hcase⟩

/-- C6: whenever `open_window_connect_audio` returns, the render loop exited
at the top of an iteration — every earlier iteration painted its frame
completely — because the window was closed or Escape was pressed at that
observation, and the capture stream is paused before the call returns. -/
theorem loop_exit_and_shutdown (tr : List FrameInputs) (outcome : RunOutcome)
    (h : open_window_connect_audio tr = some outcome) :
    outcome.streamPlayingAtReturn = false ∧
      (outcome.exitReason = ExitReason.windowClosed ∨
        outcome.exitReason = ExitReason.escapePressed) ∧
      outcome.framesDrawn = (tr.takeWhile (fun i => i.isOpen && !i.escapeDown)).length ∧
      ∃ obs, tr[outcome.framesDrawn]? = some obs ∧
        ((obs.isOpen = false ∧ outcome.exitReason = ExitReason.windowClosed) ∨
          (obs.isOpen = true ∧ obs.escapeDown = true ∧
            outcome.exitReason = ExitReason.escapePressed)) := by
  cases hrl : render_loop tr 0 with
  | none =>
    rw [open_window_connect_audio, hrl] at h
    cases h
  | some fr =>
    obtain ⟨frames, reason⟩ := fr
    rw [open_window_connect_audio, hrl] at h
    obtain rfl : (⟨frames, reason, false⟩ : RunOutcome) = outcome := by
      cases h
      rfl
    obtain ⟨hf, obs, hobs, hcase⟩ := render_loop_spec tr 0 frames reason hrl
    have hf0 : frames = (tr.takeWhile (fun i => i.isOpen && !i.escapeDown)).length := by
      omega
    subst hf0
    refine ⟨rfl, ?_, rfl, obs, hobs, hcase⟩
    rcases hcase with ⟨_, hr⟩ | ⟨_, _, hr⟩
    · exact Or.inl hr
    · exact Or.inr hr

/-- C6 witness: a trace that stays open one frame and then has Escape down
exits with one painted frame, reason `escapePressed`, stream paused. -/
theorem loop_exit_and_shutdown_witness :
    (⟨1, ExitReason.escapePressed, false⟩ : RunOutcome).streamPlayingAtReturn = false ∧
      ((⟨1, ExitReason.escapePressed, false⟩ : RunOutcome).exitReason =
          ExitReason.windowClosed ∨
        (⟨1, ExitReason.escapePressed, false⟩ : RunOutcome).exitReason =
          ExitReason.escapePressed) ∧
      (⟨1, ExitReason.escapePressed, false⟩ : RunOutcome).framesDrawn =
        (([⟨true, false⟩, ⟨true, true⟩] : List FrameInputs).takeWhile
          (fun i => i.isOpen && !i.escapeDown)).length ∧
      ∃ obs, ([⟨true, false⟩, ⟨true, true⟩] :
            List FrameInputs)[(⟨1, ExitReason.escapePressed, false⟩ : RunOutcome).framesDrawn]? =
          some obs ∧
        ((obs.isOpen = false ∧ (⟨1, ExitReason.escapePressed, false⟩ : RunOutcome).exitReason =
            ExitReason.windowClosed) ∨
          (obs.isOpen = true ∧ obs.escapeDown = true ∧
            (⟨1, ExitReason.escapePressed, false⟩ : RunOutcome).exitReason =
              ExitReason.escapePressed)) :=
  loop_exit_and_shutdown [⟨true, false⟩, ⟨true, true⟩] ⟨1, ExitReason.escapePressed, false⟩
    (by decide)

/-- C7: `setup_audio_input_loop` panics — before any stream is built — for
every channel count other than 1 and 2, with the source's assert message; for
channel counts 1 and 2 the check passes and the stream is built with the
matching mono flag. -/
theorem channel_count_rejection (cfg : StreamConfig) :
    (¬(cfg.channels = 1 ∨ cfg.channels = 2) →
      setup_audio_input_loop cfg = Except.error "only supports Mono or Stereo channels!") ∧
      ((cfg.channels = 1 ∨ cfg.channels = 2) →
        setup_audio_input_loop cfg = Except.ok ⟨cfg.channels = 1⟩) := by
  constructor
  · intro h
    simp [setup_audio_input_loop, h]
  · intro h
    simp [setup_audio_input_loop, h]

/-- C7 witness: channel count 3 is rejected with the panic message; channel
count 2 passes the check and builds the stereo stream. -/
theorem channel_count_rejection_witness :
    setup_audio_input_loop ⟨3, 44100⟩ = Except.error "only supports Mono or Stereo channels!" ∧
      setup_audio_input_loop ⟨2, 44100⟩ = Except.ok ⟨(⟨2, 44100⟩ : StreamConfig).channels = 1⟩ :=
  ⟨(channel_count_rejection ⟨3, 44100⟩).1 (by decide),
    (channel_count_rejection ⟨2, 44100⟩).2 (by simp)⟩

/-- C8: `setup_window` fixes the top chart to x-range
`-(audio_buffer_len * time_per_sample) .. 0.0` and y-range `-1.0 .. 1.01`,
and the bottom chart takes each caller-supplied preferred range when present
and the corresponding top-chart range otherwise. -/
theorem bottom_chart_range_defaulting (preferred_height preferred_width : Option ℕ)
    (preferred_x_range preferred_y_range : Option FRange) (x_desc y_desc : String)
    (audio_buffer_len : ℕ) (time_per_sample : ℚ) :
    (setup_window preferred_height preferred_width preferred_x_range preferred_y_range
          x_desc y_desc audio_buffer_len time_per_sample).top_chart.x_range =
        ⟨-((audio_buffer_len : ℚ) * time_per_sample), 0.0⟩ ∧
      (setup_window preferred_height preferred_width preferred_x_range preferred_y_range
          x_desc y_desc audio_buffer_len time_per_sample).top_chart.y_range = ⟨-1.0, 1.01⟩ ∧
      (∀ r, preferred_x_range = some r →
        (setup_window preferred_height preferred_width preferred_x_range preferred_y_range
          x_desc y_desc audio_buffer_len time_per_sample).btm_chart.x_range = r) ∧
      (preferred_x_range = none →
        (setup_window preferred_height preferred_width preferred_x_range preferred_y_range
            x_desc y_desc audio_buffer_len time_per_sample).btm_chart.x_range =
          (setup_window preferred_height preferred_width preferred_x_range preferred_y_range
            x_desc y_desc audio_buffer_len time_per_sample).top_chart.x_range) ∧
      (∀ r, preferred_y_range = some r →
        (setup_window preferred_height preferred_width preferred_x_range preferred_y_range
          x_desc y_desc audio_buffer_len time_per_sample).btm_chart.y_range = r) ∧
      (preferred_y_range = none →
        (setup_window preferred_height preferred_width preferred_x_range preferred_y_range
            x_desc y_desc audio_buffer_len time_per_sample).btm_chart.y_range =
          (setup_window preferred_height preferred_width preferred_x_range preferred_y_range
            x_desc y_desc audio_buffer_len time_per_sample).top_chart.y_range) := by
  refine ⟨rfl, rfl, ?_, ?_, ?_, ?_⟩
  · intro r hr
    subst hr
    rfl
  · intro hr
    subst hr
    rfl
  · intro r hr
    subst hr
    rfl
  · intro hr
    subst hr
    rfl

/-- C8 witness: with a preferred x-range `-5..5` and no preferred y-range the
bottom chart takes `-5..5` on x and the top chart's y-range. -/
theorem bottom_chart_range_defaulting_witness :
    (setup_window none none (some ⟨-5, 5⟩) none "x" "y" 8 1).btm_chart.x_range =
        (⟨-5, 5⟩ : FRange) ∧
      (setup_window none none (some ⟨-5, 5⟩) none "x" "y" 8 1).btm_chart.y_range =
        (setup_window none none (some ⟨-5, 5⟩) none "x" "y" 8 1).top_chart.y_range :=
  ⟨(bottom_chart_range_defaulting none none (some ⟨-5, 5⟩) none "x" "y" 8 1).2.2.1
      ⟨-5, 5⟩ rfl,
    (bottom_chart_range_defaulting none none (some ⟨-5, 5⟩) none "x" "y" 8 1).2.2.2.2.2 rfl⟩

/-- C9: for every set of input devices, `list_input_devs` returns the
name-tagged devices as a permutation of the input sorted so that the names
are in non-decreasing lexicographic order, and every device whose name query
fails is listed under `"<unknown>"`. -/
theorem device_list_ordering (devices : List Device) :
    ((list_input_devs devices).map Prod.fst).Sorted (fun a b => a ≤ b) ∧
      (list_input_devs devices).Perm
        (devices.map (fun dev => (device_display_name dev, dev))) ∧
      ∀ d, d ∈ devices → d.nameResult.isOk = false →
        ("<unknown>", d) ∈ list_input_devs devices := by
  refine ⟨?_, List.mergeSort_perm _ _, ?_⟩
  · have hp := @List.sorted_mergeSort (String × Device)
      (fun p q => decide (p.1 ≤ q.1))
      (fun a b c hab hbc => by
        simp only [decide_eq_true_eq] at hab hbc ⊢
        exact le_trans hab hbc)
      (fun a b => by
        simp only [Bool.or_eq_true, decide_eq_true_eq]
        exact le_total a.1 b.1)
      (devices.map (fun dev => (device_display_name dev, dev)))
    exact List.pairwise_map.mpr (hp.imp (fun h => of_decide_eq_true h))
  · intro d hd herr
    have hmem : ("<unknown>", d) ∈ devices.map (fun dev => (device_display_name dev, dev)) := by
      refine List.mem_map.mpr ⟨d, hd, ?_⟩
      unfold device_display_name
      cases hnr : d.nameResult with
      | ok n => rw [hnr] at herr; simp [Except.isOk, Except.toBool] at herr
      | error e => rfl
    exact List.mem_mergeSort.mpr hmem

/-- C9 witness: on a two-device list the output is sorted and a permutation of
the tagged input, and the device whose name query fails is listed under
`"<unknown>"`. -/
theorem device_list_ordering_witness :
    ((list_input_devs [⟨Except.error ()⟩, ⟨Except.ok "alsa"⟩]).map Prod.fst).Sorted
        (fun a b => a ≤ b) ∧
      (list_input_devs [⟨Except.error ()⟩, ⟨Except.ok "alsa"⟩]).Perm
        (([⟨Except.error ()⟩, ⟨Except.ok "alsa"⟩] : List Device).map
          (fun dev => (device_display_name dev, dev))) ∧
      ("<unknown>", (⟨Except.error ()⟩ : Device)) ∈
        list_input_devs [⟨Except.error ()⟩, ⟨Except.ok "alsa"⟩] :=
  ⟨(device_list_ordering [⟨Except.error ()⟩, ⟨Except.ok "alsa"⟩]).1,
    (device_list_ordering [⟨Except.error ()⟩, ⟨Except.ok "alsa"⟩]).2.1,
    (device_list_ordering [⟨Except.error ()⟩, ⟨Except.ok "alsa"⟩]).2.2
      ⟨Except.error ()⟩ (by simp) rfl⟩

end AudioVisualizer
